import Mathlib

/-!
Verification development for the eqllib normalization core
(`eqllib/normalization.py`): a shallow embedding of the query rewriter
(`QueryNormalizer._walk_field`, `_walk_comparison`, `_walk_in_set`), the
path scoper (`Normalizer.get_scoper`), the event-type classifier and the
record normalization closure (`normalize_callback`), together with
theorems settling the specification claims about them.

Modelling conventions:
 - Python dicts become association lists with unique keys; lookup is
   first-match.  Python `dict` assignment (`output[k] = v`) updates the
   existing entry in place or appends a new one.
 - Python exceptions become `Except PyError`; `PyError` distinguishes the
   exception classes the code can raise (`ValueError` with its message,
   `TypeError`, `AttributeError`, `IndexError`).
 - The external `eql` AST node taxonomy (specified in spec section 6) is
   the inductive `Expr`; compiled predicates / converters from the
   external engine are plain Lean functions, matching the spec's
   contract that they are pure functions of the event value.
 - Machine floats in the timestamp conversion are modelled exactly as
   IEEE-754 binary64 round-to-nearest-even over the relevant (normal,
   positive) range, implemented with integer arithmetic.
-/

namespace Eqllib

/-- Keys occurring in an eql field path and in raw records: strings or
integers (eql `Field.path` elements). -/
inductive PathKey where
  | s (v : String)
  | i (n : Int)
deriving DecidableEq, Repr

/-- Python values carried by raw records: the shapes `normalize_callback`
and the scoper can encounter.  `pynone` is Python `None`. -/
inductive PyVal where
  | pynone
  | boolean (b : Bool)
  | int (n : Int)
  | str (s : String)
  | list (xs : List PyVal)
  | dict (entries : List (PathKey × PyVal))
deriving Repr

/-- Comparison operators of the eql AST (`Comparison.EQ`, `NE`, ...). -/
inductive CmpOp where
  | eq | ne | lt | le | gt | ge
deriving DecidableEq, Repr

/-- The eql AST node taxonomy used by the rewriter (spec section 6):
field references, literals, function calls, comparisons, set membership,
boolean combinators.  `pynone` embeds a Python `None` that the source can
place inside an AST node list (the bare `return` in `_walk_comparison`
feeding the `Or` built on line 76). -/
inductive Expr where
  | field (base : String) (path : List PathKey)
  | str (v : String)
  | num (n : Int)
  | boolean (b : Bool)
  | null
  | pynone
  | call (name : String) (args : List Expr)
  | comparison (l : Expr) (op : CmpOp) (r : Expr)
  | inSet (expr : Expr) (container : List Expr)
  | or (terms : List Expr)
  | and (terms : List Expr)
  | not (term : Expr)
deriving Repr

/-- Python exception classes raised by the modelled code. -/
inductive PyError where
  | valueError (msg : String)
  | typeError
  | attributeError
  | indexError
deriving DecidableEq, Repr

/-- First-match association-list lookup (Python dict `d[k]` / `d.get(k)`;
keys are unique in all uses). -/
def lookup {α : Type} : List (String × α) → String → Option α
  | [], _ => none
  | (k, v) :: rest, key => if k = key then some v else lookup rest key

/-- Python `d.get(k, dflt)`. -/
def lookupD {α : Type} (l : List (String × α)) (key : String) (dflt : α) : α :=
  (lookup l key).getD dflt

/-- Is this node one of the eql `Literal` subclasses (String, Number,
Boolean, Null)? -/
def isLit : Expr → Bool
  | .str _ => true
  | .num _ => true
  | .boolean _ => true
  | .null => true
  | _ => false

/-- Python truthiness of a literal node's `.value` being falsy: empty
string, zero, False, None (`isinstance(a, Literal) and not a.value`). -/
def isFalsyLit : Expr → Bool
  | .str v => v = ""
  | .num n => n = 0
  | .boolean b => b = false
  | .null => true
  | _ => false

/-- Container test backing eql's `InSet.is_literal()` (external, spec
section 4.3 / 6: the container is fully literal). -/
def isLiteralC (c : List Expr) : Bool := c.all isLit

/-- Container test backing eql's `InSet.is_dynamic()` (external, spec
section 4.3: the container holds dynamic nodes - fields or calls). -/
def isDynamicC (c : List Expr) : Bool :=
  c.any fun e =>
    match e with
    | .field _ _ => true
    | .call _ _ => true
    | _ => false

/-- The `.value` of a string literal node (only applied under an
`all_strings` guard in the source, so the default is unreachable). -/
def strValD : Expr → String
  | .str v => v
  | _ => ""

mutual

/-- `QueryNormalizer._walk_comparison` (normalization.py lines 72-105),
taking the comparison node apart as left / comparator / right.
`Except` carries the `IndexError` Python raises on `args[0]` of an empty
argument list; the `Option` result distinguishes a bare `return`
(Python `None`, line 99, which the walker treats as "keep original")
from returning a node. -/
def walk_comparison : Expr → CmpOp → Expr → Except PyError (Option Expr)
  | .call "coalesce" cargs, .eq, right => do
      -- lines 74-77: coalesce on the left of == distributes recursively
      let ts ← walk_comparison_each cargs right
      .ok (some (.or ts))
  | .call fname args, op, .str rv =>
      if op = .eq ∨ op = .ne then
        if fname = "baseName" then
          match args with
          | [] => .error .indexError
          | a :: _ =>
            match a with
            | .field b p =>
                let f := Expr.call "wildcard" [.field b p, .str ("*\\" ++ rv)]
                if op = .eq then .ok (some f) else .ok (some (.not f))
            | _ => .ok (some a)
        else if fname = "dirName" then
          match args with
          | [] => .error .indexError
          | a :: _ =>
            match a with
            | .field b p =>
                let f := Expr.call "wildcard" [.field b p, .str (rv ++ "\\*")]
                if op = .eq then .ok (some f) else .ok (some (.not f))
            | _ => .ok (some a)
        else if fname = "coalesce" then
          match args with
          | [] => .error .indexError
          | a :: rest =>
            match a with
            | .field _ _ =>
                .ok (some (.or ((a :: rest).map
                  fun x => Expr.comparison x .eq (.str rv))))
            | _ => .ok none
        else .ok none
      else .ok (some (.comparison (.call fname args) op (.str rv)))
  | l, op, r => .ok (some (.comparison l op r))

/-- The list comprehension of line 76: each coalesce argument is
rewritten recursively; a `None` result lands in the list as-is. -/
def walk_comparison_each : List Expr → Expr → Except PyError (List Expr)
  | [], _ => .ok []
  | a :: rest, right => do
      let h ← walk_comparison a .eq right
      let t ← walk_comparison_each rest right
      .ok (h.getD .pynone :: t)

end

/-- Modelled from the spec: the external AST's literal-set splitting
capability `InSet.split_literals()` (spec section 4.3 rule 5: "split it
into an equivalent disjunction of literal comparisons").  Not exercised
by any theorem below. -/
def split_literals (e : Expr) (c : List Expr) : Expr :=
  .or (c.map fun lit => .comparison e .eq lit)

/-- `QueryNormalizer._walk_in_set` (normalization.py lines 107-131),
taking the set-membership node apart as tested expression / container. -/
def walk_in_set (expr : Expr) (container : List Expr) : Except PyError Expr :=
  if isLiteralC container then
    match expr with
    | .call fname args =>
      let allStrings := container.all fun c =>
        match c with | .str _ => true | _ => false
      if fname = "baseName" then
        -- line 116: `func.name == 'baseName' and isinstance(args[0], Field) and all_strings`
        match args with
        | [] => .error .indexError
        | a :: _ =>
          match a with
          | .field b p =>
            if allStrings then
              .ok (.call "wildcard" (Expr.field b p ::
                container.map fun c => Expr.str ("*\\" ++ strValD c)))
            else .ok (.inSet expr container)
          | _ => .ok (.inSet expr container)
      else if fname = "dirName" then
        match args with
        | [] => .error .indexError
        | a :: _ =>
          match a with
          | .field b p =>
            if allStrings then
              .ok (.call "wildcard" (Expr.field b p ::
                container.map fun c => Expr.str (strValD c ++ "\\*")))
            else .ok (.inSet expr container)
          | _ => .ok (.inSet expr container)
      else if fname = "coalesce" then
        -- lines 126-128: drop falsy literal alternatives, distribute InSet
        .ok (.or ((args.filter fun a => !isFalsyLit a).map
          fun a => Expr.inSet a container))
      else .ok (.inSet expr container)
    | _ => .ok (.inSet expr container)
  else if !isDynamicC container then .ok (split_literals expr container)
  else .ok (.inSet expr container)

/-! ### Field rewriting (`_walk_field`) with the Normalizer's shared tables

`_walk_field` (normalization.py lines 43-61) reads the Normalizer's parsed
tables, and on the rule 2(c) sub-path re-attachment (`converted.path =
path`, line 60) it mutates the `Field` node it obtained *from those
tables* - the node is aliased, so the assignment writes through to the
table entry.  The embedding threads the table state explicitly and
returns the updated state. -/

/-- The Normalizer state `_walk_field` reads (and, through the aliasing
described above, writes): `strict`, `fields.mapping`, per-event field
mappings, per-event enums (`self.normalizer.*`). -/
structure WalkState where
  strict : Bool
  field_mapping : List (String × Expr)
  event_field_mapping : List (String × List (String × Expr))
  event_enums : List (String × List (String × List (String × Expr)))

/-- Replace the value bound to an existing key, keeping order (the effect
of mutating the object stored under that key in a Python dict). -/
def setAssoc {α : Type} : List (String × α) → String → α → List (String × α)
  | [], _, _ => []
  | (k, v) :: rest, key, nv =>
    if k = key then (key, nv) :: rest else (k, v) :: setAssoc rest key nv

/-- Update one entry of a nested table (event name, then field name). -/
def setAssoc2 (t : List (String × List (String × Expr))) (ev fieldName : String)
    (nv : Expr) : List (String × List (String × Expr)) :=
  setAssoc t ev (setAssoc (lookupD t ev []) fieldName nv)

/-- The enum hit test of lines 46-50: a single-segment path whose only
segment is a registered enum option name for the current event type
(`len(path) == 1 and path[0] in enums`; an integer segment is never a
key of the string-keyed enum dict). -/
def enum_hit (st : WalkState) (cur base : String) (path : List PathKey) :
    Option Expr :=
  match path with
  | [PathKey.s k] => lookup (lookupD (lookupD st.event_enums cur []) base []) k
  | _ => none

/-- `QueryNormalizer._walk_field` (normalization.py lines 43-61), with the
field node taken apart as `base` / `path`.  Returns the rewritten
expression together with the (possibly mutated) Normalizer tables. -/
def walk_field (st : WalkState) (cur base : String) (path : List PathKey) :
    Expr × WalkState :=
  match enum_hit st cur base path with
  | some e => (e, st)
  | none =>
    let dflt := if st.strict then Expr.null else Expr.field base path
    let globalC := lookup st.field_mapping base
    let eventC := lookup (lookupD st.event_field_mapping cur []) base
    -- line 57: converted = event_converted or global_converted or default
    match eventC with
    | some c =>
      match c, path with
      | .field b _, _ :: _ =>
        -- line 60 writes through to the event_field_mapping entry
        (.field b path, { st with
          event_field_mapping := setAssoc2 st.event_field_mapping cur base (.field b path) })
      | _, _ => (c, st)
    | none =>
      match globalC with
      | some c =>
        match c, path with
        | .field b _, _ :: _ =>
          -- line 60 writes through to the field_mapping entry
          (.field b path, { st with
            field_mapping := setAssoc st.field_mapping base (.field b path) })
        | _, _ => (c, st)
      | none =>
        -- unmapped: strict gives Null(), permissive returns the field
        -- itself (line 60 then rewrites the query node's own path with
        -- its current value, a value-level no-op)
        (dflt, st)

/-! ### Path scoper (`Normalizer.get_scoper`) -/

/-- Python truthiness of a record value (`value or {}`). -/
def truthy : PyVal → Bool
  | .pynone => false
  | .boolean b => b
  | .int n => n ≠ 0
  | .str s => s ≠ ""
  | .list xs => !xs.isEmpty
  | .dict es => !es.isEmpty

/-- Python `d.get(key)` on a record dict (missing key gives `None`). -/
def dictGet (es : List (PathKey × PyVal)) (key : PathKey) : Option PyVal :=
  match es with
  | [] => none
  | (k, v) :: rest => if k = key then some v else dictGet rest key

/-- One iteration of the `walk_path` loop body (lines 192-199) for a
non-`None` current value: mapping lookup, else `key < len(value)` with
indexing; `len()` of a number or boolean raises `TypeError`, and (Python
3 semantics) comparing a string key against `len()` of a sequence raises
`TypeError`.  A negative key passes the `key < len(value)` test and then
indexes from the end, raising `IndexError` below `-len(value)`. -/
def scoper_step (v : PyVal) (k : PathKey) : Except PyError PyVal :=
  match v with
  | .dict es => .ok ((dictGet es k).getD .pynone)
  | .list xs =>
    match k with
    | .i n =>
      if n < (xs.length : Int) then
        if 0 ≤ n then .ok (xs.getD n.toNat .pynone)
        else if 0 ≤ n + (xs.length : Int) then
          .ok (xs.getD (n + (xs.length : Int)).toNat .pynone)
        else .error .indexError
      else .ok .pynone
    | .s _ => .error .typeError
  | .str s =>
    match k with
    | .i n =>
      if n < (s.length : Int) then
        if 0 ≤ n then .ok (.str (String.mk [s.data.getD n.toNat ' ']))
        else if 0 ≤ n + (s.length : Int) then
          .ok (.str (String.mk [s.data.getD (n + (s.length : Int)).toNat ' ']))
        else .error .indexError
      else .ok .pynone
    | .s _ => .error .typeError
  | _ => .error .typeError

/-- The `for key in keys` loop of `walk_path` (lines 190-199); a `None`
value breaks out of the loop. -/
def walkSteps : List PathKey → PyVal → Except PyError PyVal
  | [], v => .ok v
  | k :: rest, v =>
    match v with
    | .pynone => .ok .pynone
    | _ => do
      let v' ← scoper_step v k
      walkSteps rest v'

/-- The closure returned by `Normalizer.get_scoper` (normalization.py
lines 181-203): walk the configured key path, then `return value or {}`
(line 201). -/
def walk_path (keys : List PathKey) (data : PyVal) : Except PyError PyVal := do
  let v ← walkSteps keys data
  .ok (if truthy v then v else .dict [])

/-! ### Event-type classification (`normalize_callback` lines 257-267) -/

/-- A compiled event-type filter predicate: the engine-compiled callback
evaluated on `eql.Event(None, None, data)`, a pure function of the full,
unscoped record (spec section 4.2). -/
def Pred : Type := List (PathKey × PyVal) → Bool

/-- Python `==` between a record value (or `None`, when `event_type` is
absent) and an element of `event_updates` - a `(name, callable)` tuple.
A string / number / None never equals a tuple, so this is always
`False`: the `data.get('event_type') in event_updates` test of line 259
can never succeed. -/
def pyValEqPair (v : Option PyVal) (p : String × Pred) : Bool :=
  match v, p with
  | _, _ => false

/-- The `for name, check_type in event_updates` loop with its `else`
clause (lines 262-267): first filter that accepts the record wins, else
`eql.schema.EVENT_TYPE_GENERIC` (the string `"generic"`). -/
def firstTrue : List (String × Pred) → List (PathKey × PyVal) → String
  | [], _ => "generic"
  | (n, p) :: rest, d => if p d then n else firstTrue rest d

/-- Event-type determination of `normalize_callback` (lines 257-267):
the membership test `data.get('event_type') in event_updates` (always
false, see `pyValEqPair`), else the first matching filter in
configuration order, else the generic tag. -/
def classify (updates : List (String × Pred)) (data : List (PathKey × PyVal)) :
    String :=
  if updates.any (pyValEqPair (dictGet data (.s "event_type"))) then
    match dictGet data (.s "event_type") with
    | some (.str s) => s
    | _ => ""  -- unreachable: the guard above is always false
  else firstTrue updates data

/-! ### Timestamp conversion (`normalize_callback` lines 253-255)

`ts = int((datetime.datetime.strptime(ts, fmt) - FILETIME_BASE)
.total_seconds() * 1e7)`.  `total_seconds()` is one correctly-rounded
IEEE-754 binary64 division of the exact integer microsecond count by
`10**6`; the `* 1e7` is one correctly-rounded binary64 multiplication
(`1e7` is exact); `int()` truncates toward zero.  The binary64 model
below represents a positive double as a dyadic pair `(m, e)` denoting
`m / 2^e` and performs round-to-nearest, ties-to-even at 53 significant
bits; it is exact for all values of magnitude at least 1 arising here
(no overflow or subnormals in range). -/

/-- Round-to-nearest, ties-to-even of the rational `a / b` (`b > 0`). -/
def rheDiv (a b : Nat) : Nat :=
  let q := a / b
  let r := a % b
  if 2 * r < b then q
  else if b < 2 * r then q + 1
  else if q % 2 = 0 then q else q + 1

/-- Fuelled floor of the base-2 logarithm (structural, kernel-reducible). -/
def log2f : Nat → Nat → Nat
  | 0, _ => 0
  | fuel + 1, n => if n < 2 then 0 else log2f fuel (n / 2) + 1

/-- Fuelled search for the smallest `k` with `n * 2^k ≥ d` (for the
floor log2 of a rational below 1). -/
def negLog : Nat → Nat → Nat → Nat
  | 0, _, _ => 0
  | fuel + 1, n, d => if d ≤ n then 0 else negLog fuel (2 * n) d + 1

/-- Floor of the base-2 logarithm of the rational `n / d` (`n, d ≥ 1`). -/
def floorLog2Rat (n d : Nat) : Int :=
  if d ≤ n then (log2f 200 (n / d) : Int) else -(negLog 200 n d : Int)

/-- Correctly-rounded binary64 value of the rational `n / d` as a dyadic
pair `(m, e)` denoting `m / 2^e`: 53-bit round-to-nearest-even. -/
def roundPos (n d : Nat) : Nat × Int :=
  let e : Int := 52 - floorLog2Rat n d
  let m := if 0 ≤ e then rheDiv (n * 2 ^ e.toNat) d else rheDiv n (d * 2 ^ (-e).toNat)
  (m, e)

/-- Correctly-rounded binary64 product of the dyadic `x` with the exact
small integer `f` (here `10^7`, exactly representable). -/
def mulStep (x : Nat × Int) (f : Nat) : Nat × Int :=
  if 0 ≤ x.2 then roundPos (x.1 * f) (2 ^ x.2.toNat)
  else roundPos (x.1 * f * 2 ^ (-x.2).toNat) 1

/-- `int()` truncation (floor, values here are nonnegative) of a dyadic. -/
def floorD (x : Nat × Int) : Nat :=
  if 0 ≤ x.2 then x.1 / 2 ^ x.2.toNat else x.1 * 2 ^ (-x.2).toNat

/-- The whole float pipeline on a nonnegative exact microsecond count
`n`: `int(float(n / 10**6) * 1e7)` with binary64 arithmetic. -/
def pyTicks (n : Nat) : Nat := floorD (mulStep (roundPos n 1000000) 10000000)

/-- The pipeline extended to signed microsecond totals (binary64
arithmetic is sign-symmetric and `int()` truncates toward zero). -/
def floatTicks (t : Int) : Int :=
  if 0 ≤ t then (pyTicks t.toNat : Int) else -(pyTicks (-t).toNat : Int)

/-- A parsed civil timestamp, as produced by `datetime.strptime`. -/
structure Civil where
  year : Nat
  month : Nat
  day : Nat
  hour : Nat
  minute : Nat
  second : Nat
  micro : Nat
deriving DecidableEq, Repr

/-- Proleptic-Gregorian day count in the era-based system of the
standard civil-from-days algorithm (days since 0000-03-01, all
operations on naturals; valid for `year ≥ 1`). -/
def dfcShifted (y m d : Nat) : Nat :=
  let y1 := y - (if m ≤ 2 then 1 else 0)
  let era := y1 / 400
  let yoe := y1 - era * 400
  let mp := if 2 < m then m - 3 else m + 9
  let doy := (153 * mp + 2) / 5 + (d - 1)
  let doe := yoe * 365 + yoe / 4 - yoe / 100 + doy
  era * 146097 + doe

/-- Days from `FILETIME_BASE` (1601-01-01) to the given civil date
(`datetime` subtraction is exact). -/
def daysSince1601 (c : Civil) : Int :=
  (dfcShifted c.year c.month c.day : Int) - (dfcShifted 1601 1 1 : Int)

/-- Exact microsecond count of `parsed - FILETIME_BASE` (the numerator
of CPython's `timedelta.total_seconds`). -/
def totalMicros (c : Civil) : Int :=
  daysSince1601 c * 86400000000
    + ((c.hour * 3600 + c.minute * 60 + c.second : Nat) : Int) * 1000000
    + (c.micro : Int)

/-- Greedy taking of up to `maxN` leading digits: value, digit count,
rest of the input. -/
def takeDigitsAux : Nat → List Char → Nat → Nat → Nat × Nat × List Char
  | 0, cs, acc, cnt => (acc, cnt, cs)
  | _ + 1, [], acc, cnt => (acc, cnt, [])
  | maxN + 1, c :: cs, acc, cnt =>
    if c.isDigit then takeDigitsAux maxN cs (acc * 10 + (c.toNat - 48)) (cnt + 1)
    else (acc, cnt, c :: cs)

/-- Take between `minN` and `maxN` leading digits. -/
def takeDigits (minN maxN : Nat) (cs : List Char) : Option (Nat × List Char) :=
  let (v, cnt, rest) := takeDigitsAux maxN cs 0 0
  if minN ≤ cnt then some (v, rest) else none

/-- Expect one literal character. -/
def expectChar (c : Char) : List Char → Option (List Char)
  | [] => none
  | x :: rest => if x = c then some rest else none

/-- Gregorian leap-year rule. -/
def isLeap (y : Nat) : Bool := (y % 4 = 0 && y % 100 != 0) || y % 400 = 0

/-- Days in a month (for `datetime`'s day-of-month validation). -/
def daysInMonth (y m : Nat) : Nat :=
  if m = 2 then (if isLeap y then 29 else 28)
  else if m = 4 ∨ m = 6 ∨ m = 9 ∨ m = 11 then 30 else 31

/-- Range validation performed by `strptime`'s regular expressions plus
the `datetime` constructor (year 1..9999, month 1..12, valid day of
month, hour 0..23, minute 0..59, second 0..59). -/
def civilValid (c : Civil) : Bool :=
  1 ≤ c.year && c.year ≤ 9999 && 1 ≤ c.month && c.month ≤ 12
    && 1 ≤ c.day && c.day ≤ daysInMonth c.year c.month
    && c.hour ≤ 23 && c.minute ≤ 59 && c.second ≤ 59 && c.micro < 1000000

/-- Parse `DDDD-DD-DDTDD:DD:DD` per `"%Y-%m-%dT%H:%M:%S"` (`%Y` takes
exactly four digits, the other fields one or two). -/
def parseFmtA (cs : List Char) : Option Civil := do
  let (y, r1) ← takeDigits 4 4 cs
  let r2 ← expectChar '-' r1
  let (mo, r3) ← takeDigits 1 2 r2
  let r4 ← expectChar '-' r3
  let (d, r5) ← takeDigits 1 2 r4
  let r6 ← expectChar 'T' r5
  let (h, r7) ← takeDigits 1 2 r6
  let r8 ← expectChar ':' r7
  let (mi, r9) ← takeDigits 1 2 r8
  let r10 ← expectChar ':' r9
  let (ss, r11) ← takeDigits 1 2 r10
  match r11 with
  | [] =>
    let c : Civil := ⟨y, mo, d, h, mi, ss, 0⟩
    if civilValid c then some c else none
  | _ => none

/-- Parse per `"%Y-%m-%dT%H:%M:%S.%f"`: as `parseFmtA` plus a dot and
one to six fractional digits, zero-extended to microseconds. -/
def parseFmtB (cs : List Char) : Option Civil := do
  let (y, r1) ← takeDigits 4 4 cs
  let r2 ← expectChar '-' r1
  let (mo, r3) ← takeDigits 1 2 r2
  let r4 ← expectChar '-' r3
  let (d, r5) ← takeDigits 1 2 r4
  let r6 ← expectChar 'T' r5
  let (h, r7) ← takeDigits 1 2 r6
  let r8 ← expectChar ':' r7
  let (mi, r9) ← takeDigits 1 2 r8
  let r10 ← expectChar ':' r9
  let (ss, r11) ← takeDigits 1 2 r10
  let r12 ← expectChar '.' r11
  let (fv, cnt, r13) := takeDigitsAux 6 r12 0 0
  if cnt = 0 then none
  else match r13 with
  | [] =>
    let c : Civil := ⟨y, mo, d, h, mi, ss, fv * 10 ^ (6 - cnt)⟩
    if civilValid c then some c else none
  | _ => none

/-- Modelled from Python's documented `datetime.strptime` behaviour for
the two concrete civil format strings this development instantiates
(`datetime` is standard-library code, outside this repository); any
other civil format is mapped to a parse failure and is not relied on by
any theorem.  A failed parse raises a `ValueError` whose message does
not name the data source. -/
def strptime (fmt s : String) : Except PyError Civil :=
  let bad : Except PyError Civil :=
    .error (.valueError ("time data " ++ s ++ " does not match format " ++ fmt))
  if fmt = "%Y-%m-%dT%H:%M:%S" then
    match parseFmtA s.data with
    | some c => .ok c
    | none => bad
  else if fmt = "%Y-%m-%dT%H:%M:%S.%f" then
    match parseFmtB s.data with
    | some c => .ok c
    | none => bad
  else bad

/-- Lines 253-255 of `normalize_callback`: with the `filetime` sentinel
the raw value passes through unchanged; otherwise the raw value must be
a string (else `strptime` raises `TypeError`), is parsed, and goes
through the binary64 pipeline. -/
def convertTs (fmt : String) (raw : PyVal) : Except PyError PyVal :=
  if fmt ≠ "filetime" then
    match raw with
    | .str s => do
      let c ← strptime fmt s
      .ok (.int (floatTicks (totalMicros c)))
    | _ => .error .typeError
  else .ok raw

/-! ### The compiled normalization closure (`normalize_callback`) -/

/-- An engine-compiled field converter: the callback from
`engine.convert(mapped_field, scoped=True)`, a pure function of the
scoped event value returning a value or `None` (spec section 4.2). -/
def Conv : Type := PyVal → Option PyVal

/-- The per-source compiled configuration closed over by
`normalize_callback` (built in `Normalizer.__init__` /
`get_data_normalizer`). -/
structure NConfig where
  strict : Bool
  name : String
  time_field : String
  time_format : String
  scope_keys : Option (List PathKey)
  event_updates : List (String × Pred)
  global_mapping : List (String × Conv)
  enum_converters : List (String × List (String × List (String × Pred)))
  event_mapping : List (String × List (String × Conv))

/-- The `output` value: a dict normally, or the list that
`scoped.copy()` yields when a configured scope resolves to a list (any
later string-keyed assignment into it raises `TypeError`). -/
inductive OutVal where
  | d (es : List (PathKey × PyVal))
  | l (xs : List PyVal)
deriving Repr

/-- The normalized event: `eql.Event(event_type, ts, output)`. -/
structure NEvent where
  etype : String
  time : PyVal
  fields : OutVal
deriving Repr

/-- Python dict assignment `output[k] = v`: update in place or append. -/
def setAssocP : List (PathKey × PyVal) → PathKey → PyVal → List (PathKey × PyVal)
  | [], k, v => [(k, v)]
  | (k1, v1) :: rest, k, v =>
    if k1 = k then (k, v) :: rest else (k1, v1) :: setAssocP rest k v

/-- `output[k] = v` on the output value, with the string keys the source
uses (string-keyed assignment into a list raises `TypeError`). -/
def setOut (o : OutVal) (k : String) (v : PyVal) : Except PyError OutVal :=
  match o with
  | .d es => .ok (.d (setAssocP es (.s k) v))
  | .l _ => .error .typeError

/-- Python `key in dict`. -/
def hasKey (es : List (PathKey × PyVal)) (key : PathKey) : Bool :=
  (dictGet es key).isSome

/-- Lines 269-274: apply the global field converters to the scoped
event, keeping non-`None` results. -/
def applyGlobal : List (String × Conv) → PyVal → OutVal → Except PyError OutVal
  | [], _, o => .ok o
  | (k, f) :: rest, scopedv, o =>
    match f scopedv with
    | some v => do
      let o' ← setOut o k v
      applyGlobal rest scopedv o'
    | none => applyGlobal rest scopedv o

/-- The inner loop of lines 277-281: first enum option whose checker
accepts the full record. -/
def firstEnum : List (String × Pred) → List (PathKey × PyVal) → Option String
  | [], _ => none
  | (opt, chk) :: rest, d => if chk d then some opt else firstEnum rest d

/-- Lines 276-281: enum classifiers for the resolved event type, against
the full unscoped record. -/
def applyEnums : List (String × List (String × Pred)) → List (PathKey × PyVal) →
    OutVal → Except PyError OutVal
  | [], _, o => .ok o
  | (ename, opts) :: rest, dat, o =>
    match firstEnum opts dat with
    | some tag => do
      let o' ← setOut o ename (.str tag)
      applyEnums rest dat o'
    | none => applyEnums rest dat o

/-- Lines 283-287: event-type-specific field converters against the
scoped event, keeping non-`None` results. -/
def applyEvent : List (String × Conv) → PyVal → OutVal → Except PyError OutVal
  | [], _, o => .ok o
  | (k, f) :: rest, scopedv, o =>
    match f scopedv with
    | some v => do
      let o' ← setOut o k v
      applyEvent rest scopedv o'
    | none => applyEvent rest scopedv o

/-- `normalize_callback` (normalization.py lines 245-293): scope the
record, start the output (`{}` in strict mode, `scoped.copy()`
otherwise - `.copy()` on a non-dict, non-list scoped value raises
`AttributeError`), reject records missing the timestamp field with the
source-naming `ValueError`, convert the timestamp, classify the event
type, apply global / enum / event-specific converters, and stamp
`event_type` and `timestamp`. -/
def normalize_callback (N : NConfig) (data : List (PathKey × PyVal)) :
    Except PyError NEvent := do
  -- line 247: scoped = scoper(data) if scoper else data
  let scopedv ← match N.scope_keys with
    | none => Except.ok (PyVal.dict data)
    | some ks => walk_path ks (.dict data)
  -- line 248: output = {} if self.strict else scoped.copy()
  let output0 ←
    if N.strict then Except.ok (OutVal.d [])
    else match scopedv with
      | .dict es => Except.ok (OutVal.d es)
      | .list xs => Except.ok (OutVal.l xs)
      | _ => Except.error PyError.attributeError
  -- lines 250-251: missing timestamp field
  if hasKey data (.s N.time_field) then do
    -- lines 253-255
    let ts ← convertTs N.time_format ((dictGet data (.s N.time_field)).getD .pynone)
    -- lines 257-267
    let etype := classify N.event_updates data
    -- lines 269-287
    let output1 ← applyGlobal N.global_mapping scopedv output0
    let output2 ← applyEnums (lookupD N.enum_converters etype []) data output1
    let output3 ← applyEvent (lookupD N.event_mapping etype []) scopedv output2
    -- lines 289-292
    let output4 ← setOut output3 "event_type" (.str etype)
    let output5 ← setOut output4 "timestamp" ts
    .ok ⟨etype, ts, output5⟩
  else
    .error (.valueError ("Unable to normalize. Check that the input schema matches " ++ N.name))

/-- `isinstance(-, Field)`. -/
def isField : Expr → Bool
  | .field _ _ => true
  | _ => false

/-! ## Claim C7: baseName / dirName comparison rewriting -/

/-- C7: for a comparison whose left side is `baseName(f)` with `f` a
field reference and whose right side is a string literal, `EQ` rewrites
to `wildcard(f, "*\lit")` and `NE` to the negation of that call; the
`dirName` rule is symmetric with pattern `"lit\*"`; and when the
function's argument is not a field reference the rewrite returns that
argument unchanged (for both comparators and both functions). -/
theorem walk_comparison_basename_dirname :
    (∀ (b : String) (p : List PathKey) (rest : List Expr) (lit : String),
      walk_comparison (.call "baseName" (Expr.field b p :: rest)) .eq (.str lit)
        = .ok (some (.call "wildcard" [.field b p, .str ("*\\" ++ lit)])))
    ∧ (∀ (b : String) (p : List PathKey) (rest : List Expr) (lit : String),
      walk_comparison (.call "baseName" (Expr.field b p :: rest)) .ne (.str lit)
        = .ok (some (.not (.call "wildcard" [.field b p, .str ("*\\" ++ lit)]))))
    ∧ (∀ (b : String) (p : List PathKey) (rest : List Expr) (lit : String),
      walk_comparison (.call "dirName" (Expr.field b p :: rest)) .eq (.str lit)
        = .ok (some (.call "wildcard" [.field b p, .str (lit ++ "\\*")])))
    ∧ (∀ (b : String) (p : List PathKey) (rest : List Expr) (lit : String),
      walk_comparison (.call "dirName" (Expr.field b p :: rest)) .ne (.str lit)
        = .ok (some (.not (.call "wildcard" [.field b p, .str (lit ++ "\\*")]))))
    ∧ (∀ (a : Expr) (rest : List Expr) (lit : String) (op : CmpOp),
      isField a = false → (op = .eq ∨ op = .ne) →
      walk_comparison (.call "baseName" (a :: rest)) op (.str lit) = .ok (some a)
      ∧ walk_comparison (.call "dirName" (a :: rest)) op (.str lit) = .ok (some a)) := by
  refine ⟨?_, ?_, ?_, ?_, ?_⟩
  · intro b p rest lit; simp [walk_comparison]
  · intro b p rest lit; simp [walk_comparison]
  · intro b p rest lit; simp [walk_comparison]
  · intro b p rest lit; simp [walk_comparison]
  · intro a rest lit op hf hop
    rcases hop with h | h <;> subst h <;>
      cases a <;> simp_all [walk_comparison, isField]

/-- C7 witness: the theorem instantiated at the spec's own example
(`baseName(path) == "cmd.exe"`), and the non-field degradation at a
string-literal argument. -/
theorem walk_comparison_basename_dirname_witness :
    walk_comparison (.call "baseName" [Expr.field "path" []]) .eq (.str "cmd.exe")
      = .ok (some (.call "wildcard" [.field "path" [], .str ("*\\" ++ "cmd.exe")]))
    ∧ walk_comparison (.call "baseName" [Expr.str "x"]) .ne (.str "cmd.exe")
      = .ok (some (.str "x")) :=
  ⟨walk_comparison_basename_dirname.1 "path" [] [] "cmd.exe",
   (walk_comparison_basename_dirname.2.2.2.2 (.str "x") [] "cmd.exe" .ne
     (by decide) (Or.inr rfl)).1⟩

/-! ## Claim C10: coalesce on the left of `!=` loses the negation -/

/-- C10: for `coalesce(a, b, ...) != "lit"` (NE comparator, string right
side) whose first coalesce argument is a field reference, the rewriter
returns the plain disjunction of `EQ` comparisons - no negation is
applied (normalization.py lines 96-97 return before reaching the
negation at line 104). -/
theorem walk_comparison_coalesce_ne (b : String) (p : List PathKey)
    (rest : List Expr) (lit : String) :
    walk_comparison (.call "coalesce" (Expr.field b p :: rest)) .ne (.str lit)
      = .ok (some (.or ((Expr.field b p :: rest).map
          fun x => Expr.comparison x .eq (.str lit)))) := by
  simp [walk_comparison]

/-! ## Claim C8: set-membership rewriting -/

/-- C8: `baseName(f) in (s1, s2, ...)` with a field reference and an
all-string container rewrites to `wildcard(f, "*\s1", "*\s2", ...)`;
and `coalesce(a, b, ...) in set` with a literal container rewrites to
the disjunction of per-argument membership tests after discarding
falsy / empty literal coalesce arguments. -/
theorem walk_in_set_basename_coalesce :
    (∀ (b : String) (p : List PathKey) (ss : List String),
      walk_in_set (.call "baseName" [Expr.field b p]) (ss.map Expr.str)
        = .ok (.call "wildcard" (Expr.field b p ::
            ss.map fun s => Expr.str ("*\\" ++ s))))
    ∧ (∀ (args container : List Expr), isLiteralC container = true →
      walk_in_set (.call "coalesce" args) container
        = .ok (.or ((args.filter fun a => !isFalsyLit a).map
            fun a => Expr.inSet a container))) := by
  constructor
  · intro b p ss
    simp [walk_in_set, isLiteralC, isLit, strValD, List.all_map, List.map_map,
      Function.comp]
  · intro args container h
    simp [walk_in_set, h]

/-- C8 witness: the spec's example `baseName(path) in ("a","b")`, and a
coalesce membership with a falsy literal alternative discarded. -/
theorem walk_in_set_basename_coalesce_witness :
    walk_in_set (.call "baseName" [Expr.field "path" []])
        ([ "a", "b" ].map Expr.str)
      = .ok (.call "wildcard" (Expr.field "path" [] ::
          [ "a", "b" ].map fun s => Expr.str ("*\\" ++ s)))
    ∧ walk_in_set (.call "coalesce" [Expr.field "x" [], Expr.null])
        [Expr.str "a"]
      = .ok (.or (([Expr.field "x" [], Expr.null].filter
          fun a => !isFalsyLit a).map
            fun a => Expr.inSet a [Expr.str "a"])) :=
  ⟨walk_in_set_basename_coalesce.1 "path" [] ["a", "b"],
   walk_in_set_basename_coalesce.2 [Expr.field "x" [], Expr.null]
     [Expr.str "a"] (by decide)⟩

/-! ## Association-list frame lemmas for the `_walk_field` state -/

theorem lookup_setAssoc_ne {α : Type} (l : List (String × α)) (k k' : String)
    (v : α) (h : k' ≠ k) : lookup (setAssoc l k v) k' = lookup l k' := by
  induction l with
  | nil => rfl
  | cons hd tl ih =>
    obtain ⟨k1, v1⟩ := hd
    by_cases hk : k1 = k
    · subst hk
      simp [setAssoc, lookup, h, Ne.symm h]
    · simp [setAssoc, lookup, hk, ih]

theorem lookup_setAssoc_self {α : Type} (l : List (String × α)) (k : String)
    (v w : α) (h : lookup l k = some w) :
    lookup (setAssoc l k v) k = some v := by
  induction l with
  | nil => simp [lookup] at h
  | cons hd tl ih =>
    obtain ⟨k1, v1⟩ := hd
    by_cases hk : k1 = k
    · subst hk
      simp [setAssoc, lookup]
    · simp [lookup, hk] at h
      simp [setAssoc, lookup, hk, ih h]

theorem setAssoc_same {α : Type} (l : List (String × α)) (k : String) (v : α)
    (h : lookup l k = some v) : setAssoc l k v = l := by
  induction l with
  | nil => rfl
  | cons hd tl ih =>
    obtain ⟨k1, v1⟩ := hd
    by_cases hk : k1 = k
    · subst hk
      simp [lookup] at h
      simp [setAssoc, h]
    · simp [lookup, hk] at h
      simp [setAssoc, hk, ih h]

/-! ## Claim C6: strict vs permissive unmapped field -/

/-- C6: a field reference with no matching enum option, no
event-specific mapping and no global mapping rewrites to a null literal
in strict mode and to the original field reference unchanged in
permissive mode (and the tables are untouched). -/
theorem walk_field_unmapped (st : WalkState) (cur base : String)
    (path : List PathKey)
    (henum : enum_hit st cur base path = none)
    (hev : lookup (lookupD st.event_field_mapping cur []) base = none)
    (hgl : lookup st.field_mapping base = none) :
    walk_field st cur base path
      = ((if st.strict then Expr.null else Expr.field base path), st) := by
  simp [walk_field, henum, hev, hgl]

/-- C6 witness: an unmapped field under an empty strict configuration
rewrites to `Null`, and under an empty permissive configuration to
itself. -/
theorem walk_field_unmapped_witness :
    walk_field ⟨true, [], [], []⟩ "T" "f" [PathKey.s "x"]
      = (Expr.null, ⟨true, [], [], []⟩)
    ∧ walk_field ⟨false, [], [], []⟩ "T" "f" [PathKey.s "x"]
      = (Expr.field "f" [PathKey.s "x"], ⟨false, [], [], []⟩) :=
  ⟨walk_field_unmapped ⟨true, [], [], []⟩ "T" "f" [PathKey.s "x"] rfl rfl rfl,
   walk_field_unmapped ⟨false, [], [], []⟩ "T" "f" [PathKey.s "x"] rfl rfl rfl⟩

/-! ## Claim C2: the rewriter's table state -/

/-- A permissive Normalizer state whose global mapping sends `pname` to
the parsed expression `proc` (a `Field` node stored in the table). -/
def c2State : WalkState := ⟨false, [("pname", Expr.field "proc" [])], [], []⟩

/-- C2 counterexample: rewriting the single field reference `pname.x`
(a query AST) under `c2State` changes the Normalizer's parsed
field-mapping table - the rule 2(c) re-attachment writes the sub-path
into the very `Field` node the table stores, so the table entry for
`pname` becomes `proc.x`. -/
theorem walk_field_mutates_tables :
    (walk_field c2State "T" "pname" [PathKey.s "x"]).2.field_mapping
      = [("pname", Expr.field "proc" [PathKey.s "x"])]
    ∧ c2State.field_mapping = [("pname", Expr.field "proc" [])]
    ∧ (walk_field c2State "T" "pname" [PathKey.s "x"]).2.field_mapping
      ≠ c2State.field_mapping := by
  refine ⟨rfl, rfl, ?_⟩
  intro h
  simp [c2State, walk_field, enum_hit, lookup, lookupD, setAssoc] at h

/-- C2 amended: `_walk_field` reads only the shared Normalizer tables,
and the one mutation it performs is the rule 2(c) sub-path
re-attachment - which writes through to the resolved mapping-table
entry, so the tables are *not* left unchanged in that case.  Precisely:
rewriting the same field reference again immediately afterwards yields
the same result and the same tables (the walker is restartable on a
per-reference basis), `strict` and the enum tables never change, a
reference with an empty sub-path changes nothing, and the only table
entry that can change is the one the reference resolved through
(`base` under the current event type, or `base` in the global map). -/
theorem walk_field_restartable (st : WalkState) (cur base : String)
    (path : List PathKey) (r : Expr) (st' : WalkState)
    (h : walk_field st cur base path = (r, st')) :
    walk_field st' cur base path = (r, st')
    ∧ st'.strict = st.strict
    ∧ st'.event_enums = st.event_enums
    ∧ (path = [] → st' = st)
    ∧ (∀ b', b' ≠ base →
        lookup st'.field_mapping b' = lookup st.field_mapping b')
    ∧ (∀ ev b', ev ≠ cur ∨ b' ≠ base →
        lookup (lookupD st'.event_field_mapping ev []) b'
          = lookup (lookupD st.event_field_mapping ev []) b') := by
  cases he : enum_hit st cur base path with
  | some e =>
    rw [walk_field, he] at h
    rw [Prod.mk.injEq] at h
    obtain ⟨rfl, rfl⟩ := h
    exact ⟨by rw [walk_field, he], rfl, rfl, fun _ => rfl, fun _ _ => rfl,
      fun _ _ _ => rfl⟩
  | none =>
    cases hevl : lookup st.event_field_mapping cur with
    | some l =>
      cases hc : lookup l base with
      | some c =>
        have hevc : lookup (lookupD st.event_field_mapping cur []) base = some c := by
          simp [lookupD, hevl, hc]
        match c, path with
        | .field b pb, k :: ps =>
          rw [walk_field, he] at h
          simp only [hevc] at h
          rw [Prod.mk.injEq] at h
          obtain ⟨rfl, rfl⟩ := h
          have hnl : lookupD st.event_field_mapping cur [] = l := by
            simp [lookupD, hevl]
          have houter : lookup
              (setAssoc st.event_field_mapping cur
                (setAssoc l base (Expr.field b (k :: ps)))) cur
              = some (setAssoc l base (Expr.field b (k :: ps))) :=
            lookup_setAssoc_self _ _ _ _ hevl
          have hinner : lookup (setAssoc l base (Expr.field b (k :: ps))) base
              = some (Expr.field b (k :: ps)) :=
            lookup_setAssoc_self _ _ _ _ hc
          refine ⟨?_, rfl, rfl, ?_, fun _ _ => rfl, ?_⟩
          · -- restartability: the second walk finds the updated entry and
            -- rewrites it to itself
            rw [walk_field]
            have he' : enum_hit
                { st with event_field_mapping :=
                    setAssoc2 st.event_field_mapping cur base (Expr.field b (k :: ps)) }
                cur base (k :: ps) = none := he
            rw [he']
            have hevc' : lookup
                (lookupD (setAssoc2 st.event_field_mapping cur base
                  (Expr.field b (k :: ps))) cur []) base
                = some (Expr.field b (k :: ps)) := by
              rw [setAssoc2, hnl]
              simp [lookupD, houter, hinner]
            simp only [hevc']
            have h1 : lookupD (setAssoc2 st.event_field_mapping cur base
                (Expr.field b (k :: ps))) cur []
                = setAssoc l base (Expr.field b (k :: ps)) := by
              rw [setAssoc2, hnl]
              simp [lookupD, houter]
            have hfix2 : setAssoc2
                (setAssoc2 st.event_field_mapping cur base (Expr.field b (k :: ps)))
                cur base (Expr.field b (k :: ps))
                = setAssoc2 st.event_field_mapping cur base (Expr.field b (k :: ps)) := by
              conv_lhs => rw [setAssoc2, h1, setAssoc_same _ _ _ hinner]
              rw [setAssoc2, hnl]
              exact setAssoc_same _ _ _ houter
            simp [hfix2]
          · intro hp
            cases hp
          · -- frame: only the (cur, base) entry of the event table moved
            intro ev b' hne
            show lookup (lookupD (setAssoc2 st.event_field_mapping cur base
              (Expr.field b (k :: ps))) ev []) b' = _
            rw [setAssoc2, hnl]
            rcases hne with hne | hne
            · have hx : lookup (setAssoc st.event_field_mapping cur
                  (setAssoc l base (Expr.field b (k :: ps)))) ev
                  = lookup st.event_field_mapping ev :=
                lookup_setAssoc_ne _ _ _ _ hne
              simp [lookupD, hx]
            · by_cases hev : ev = cur
              · subst hev
                simp [lookupD, houter, hevl, lookup_setAssoc_ne _ _ _ _ hne, hc]
              · have hx : lookup (setAssoc st.event_field_mapping cur
                    (setAssoc l base (Expr.field b (k :: ps)))) ev
                    = lookup st.event_field_mapping ev :=
                  lookup_setAssoc_ne _ _ _ _ hev
                simp [lookupD, hx]
        | .field b pb, [] =>
          rw [walk_field, he] at h
          simp only [hevc] at h
          rw [Prod.mk.injEq] at h
          obtain ⟨rfl, rfl⟩ := h
          exact ⟨by rw [walk_field, he]; simp [hevc], rfl, rfl, fun _ => rfl,
            fun _ _ => rfl, fun _ _ _ => rfl⟩
        | .str v, _ | .num _, _ | .boolean _, _ | .null, _ | .pynone, _
        | .call _ _, _ | .comparison _ _ _, _ | .inSet _ _, _
        | .or _, _ | .and _, _ | .not _, _ =>
          rw [walk_field, he] at h
          simp only [hevc] at h
          rw [Prod.mk.injEq] at h
          obtain ⟨rfl, rfl⟩ := h
          exact ⟨by rw [walk_field, he]; simp [hevc], rfl, rfl, fun _ => rfl,
            fun _ _ => rfl, fun _ _ _ => rfl⟩
      | none =>
        have hevc : lookup (lookupD st.event_field_mapping cur []) base = none := by
          simp [lookupD, hevl, hc]
        cases hgl : lookup st.field_mapping base with
        | some c =>
          match c, path with
          | .field b pb, k :: ps =>
            rw [walk_field, he] at h
            simp only [hevc, hgl] at h
            rw [Prod.mk.injEq] at h
            obtain ⟨rfl, rfl⟩ := h
            have hgl' : lookup (setAssoc st.field_mapping base (Expr.field b (k :: ps))) base
                = some (Expr.field b (k :: ps)) :=
              lookup_setAssoc_self _ _ _ _ hgl
            refine ⟨?_, rfl, rfl, ?_, ?_, fun _ _ _ => rfl⟩
            · rw [walk_field]
              have he' : enum_hit
                  { st with field_mapping :=
                      setAssoc st.field_mapping base (Expr.field b (k :: ps)) }
                  cur base (k :: ps) = none := he
              rw [he']
              simp only [hevc, hgl']
              simp [setAssoc_same _ _ _ hgl']
            · intro hp
              cases hp
            · intro b' hne
              exact lookup_setAssoc_ne _ _ _ _ hne
          | .field b pb, [] =>
            rw [walk_field, he] at h
            simp only [hevc, hgl] at h
            rw [Prod.mk.injEq] at h
            obtain ⟨rfl, rfl⟩ := h
            exact ⟨by rw [walk_field, he]; simp [hevc, hgl], rfl, rfl,
              fun _ => rfl, fun _ _ => rfl, fun _ _ _ => rfl⟩
          | .str v, _ | .num _, _ | .boolean _, _ | .null, _ | .pynone, _
          | .call _ _, _ | .comparison _ _ _, _ | .inSet _ _, _
          | .or _, _ | .and _, _ | .not _, _ =>
            rw [walk_field, he] at h
            simp only [hevc, hgl] at h
            rw [Prod.mk.injEq] at h
            obtain ⟨rfl, rfl⟩ := h
            exact ⟨by rw [walk_field, he]; simp [hevc, hgl], rfl, rfl,
              fun _ => rfl, fun _ _ => rfl, fun _ _ _ => rfl⟩
        | none =>
          rw [walk_field, he] at h
          simp only [hevc, hgl] at h
          rw [Prod.mk.injEq] at h
          obtain ⟨rfl, rfl⟩ := h
          exact ⟨by rw [walk_field, he]; simp [hevc, hgl], rfl, rfl,
            fun _ => rfl, fun _ _ => rfl, fun _ _ _ => rfl⟩
    | none =>
      have hevc : lookup (lookupD st.event_field_mapping cur []) base = none := by
        simp [lookupD, hevl, lookup]
      cases hgl : lookup st.field_mapping base with
      | some c =>
        match c, path with
        | .field b pb, k :: ps =>
          rw [walk_field, he] at h
          simp only [hevc, hgl] at h
          rw [Prod.mk.injEq] at h
          obtain ⟨rfl, rfl⟩ := h
          have hgl' : lookup (setAssoc st.field_mapping base (Expr.field b (k :: ps))) base
              = some (Expr.field b (k :: ps)) :=
            lookup_setAssoc_self _ _ _ _ hgl
          refine ⟨?_, rfl, rfl, ?_, ?_, fun _ _ _ => rfl⟩
          · rw [walk_field]
            have he' : enum_hit
                { st with field_mapping :=
                    setAssoc st.field_mapping base (Expr.field b (k :: ps)) }
                cur base (k :: ps) = none := he
            rw [he']
            simp only [hevc, hgl']
            simp [setAssoc_same _ _ _ hgl']
          · intro hp
            cases hp
          · intro b' hne
            exact lookup_setAssoc_ne _ _ _ _ hne
        | .field b pb, [] =>
          rw [walk_field, he] at h
          simp only [hevc, hgl] at h
          rw [Prod.mk.injEq] at h
          obtain ⟨rfl, rfl⟩ := h
          exact ⟨by rw [walk_field, he]; simp [hevc, hgl], rfl, rfl,
            fun _ => rfl, fun _ _ => rfl, fun _ _ _ => rfl⟩
        | .str v, _ | .num _, _ | .boolean _, _ | .null, _ | .pynone, _
        | .call _ _, _ | .comparison _ _ _, _ | .inSet _ _, _
        | .or _, _ | .and _, _ | .not _, _ =>
          rw [walk_field, he] at h
          simp only [hevc, hgl] at h
          rw [Prod.mk.injEq] at h
          obtain ⟨rfl, rfl⟩ := h
          exact ⟨by rw [walk_field, he]; simp [hevc, hgl], rfl, rfl,
            fun _ => rfl, fun _ _ => rfl, fun _ _ _ => rfl⟩
      | none =>
        rw [walk_field, he] at h
        simp only [hevc, hgl] at h
        rw [Prod.mk.injEq] at h
        obtain ⟨rfl, rfl⟩ := h
        exact ⟨by rw [walk_field, he]; simp [hevc, hgl], rfl, rfl,
          fun _ => rfl, fun _ _ => rfl, fun _ _ _ => rfl⟩

/-- C2 amended witness: the theorem applied to the concrete mutation of
`walk_field_mutates_tables`, showing the second identical rewrite
reproduces the same result and state. -/
theorem walk_field_restartable_witness :
    walk_field ⟨false, [("pname", Expr.field "proc" [PathKey.s "x"])], [], []⟩
        "T" "pname" [PathKey.s "x"]
      = (Expr.field "proc" [PathKey.s "x"],
         ⟨false, [("pname", Expr.field "proc" [PathKey.s "x"])], [], []⟩) :=
  (walk_field_restartable c2State "T" "pname" [PathKey.s "x"]
    (Expr.field "proc" [PathKey.s "x"])
    ⟨false, [("pname", Expr.field "proc" [PathKey.s "x"])], [], []⟩ rfl).1

/-! ## Claim C1: the declared `event_type` is never trusted -/

/-- C1 evaluation at the failing input: with two always-true filters
`a`, `b` (in that order) and a record that declares the recognized
event type `b`, classification still yields `a` - the membership test
`data.get('event_type') in event_updates` on line 259 compares the
declared string against `(name, callable)` tuples and never succeeds,
so the declared type is never used and the filters are always
re-evaluated. -/
theorem classify_ignores_declared_type :
    classify [("a", fun _ => true), ("b", fun _ => true)]
        [(.s "event_type", .str "b"), (.s "ts", .int 0)] = "a"
    ∧ "a" ≠ "b" :=
  ⟨rfl, by decide⟩

/-! ## Claim C5: earliest matching filter wins -/

/-- C5: whenever at least two configured event-type filters accept a
record, `classify` assigns the event type declared earlier in
configuration order (the first matching one), regardless of any
declared `event_type` on the record. -/
theorem classify_first_match (pre mid post : List (String × Pred))
    (n1 n2 : String) (p1 p2 : Pred) (data : List (PathKey × PyVal))
    (hpre : ∀ q ∈ pre, q.2 data = false)
    (h1 : p1 data = true) (_h2 : p2 data = true) :
    classify (pre ++ (n1, p1) :: mid ++ (n2, p2) :: post) data = n1 := by
  have hany : ∀ (l : List (String × Pred)) (v : Option PyVal),
      l.any (pyValEqPair v) = false := by
    intro l v
    induction l with
    | nil => rfl
    | cons q rest ih => simp [pyValEqPair, ih]
  rw [classify, hany]
  simp only [Bool.false_eq_true, if_false]
  induction pre with
  | nil => simp [firstTrue, h1]
  | cons q rest ih =>
    have hq := hpre q (by simp)
    simp only [List.cons_append, firstTrue, hq, Bool.false_eq_true, if_false]
    exact ih fun q' hq' => hpre q' (by simp [hq'])

/-- C5 witness: two always-true filters and a record declaring the
later type; the earlier type is chosen. -/
theorem classify_first_match_witness :
    classify [("proc", fun _ => true), ("net", fun _ => true)]
        [(.s "event_type", .str "net")] = "proc" :=
  classify_first_match [] [] [] "proc" "net" _ _ _ (by simp) rfl rfl

/-! ## Claim C9: totality of the path scoper -/

/-- The domain on which the scoper's loop body is well-typed in Python:
along the walk every value is absent, a mapping, or a sequence indexed
by a nonnegative integer key (out-of-range treated as absent). -/
def cleanPath : List PathKey → PyVal → Bool
  | [], _ => true
  | _ :: _, .pynone => true
  | k :: rest, .dict es => cleanPath rest ((dictGet es k).getD .pynone)
  | (.i n) :: rest, .list xs =>
    if 0 ≤ n then
      (if n < (xs.length : Int) then cleanPath rest (xs.getD n.toNat .pynone)
       else cleanPath rest .pynone)
    else false
  | (.i n) :: rest, .str s =>
    if 0 ≤ n then
      (if n < (s.length : Int) then
        cleanPath rest (.str (String.mk [s.data.getD n.toNat ' ']))
       else cleanPath rest .pynone)
    else false
  | _, _ => false

/-- C9 counterexample: with scope path `a.b` and a record whose `a`
value is the number 5, the scoper is not total: Python evaluates
`len(5)` on line 196 and raises `TypeError` instead of treating the
value as absent. -/
theorem walk_path_typeerror :
    walk_path [PathKey.s "a", PathKey.s "b"] (.dict [(.s "a", .int 5)])
      = .error .typeError := rfl

/-- C9 amended: on every record and scope path in which each traversed
intermediate value is absent, a mapping, or a sequence indexed by a
valid nonnegative integer key, the scoper is total and never returns
`None`: it produces a value, substituting the empty object for falsy
results.  (On other intermediate values - numbers, booleans, or a
string key against a sequence - it raises instead.) -/
theorem walk_path_total_on_clean (keys : List PathKey) (v : PyVal)
    (h : cleanPath keys v = true) :
    ∃ r, walk_path keys v = Except.ok r ∧ r ≠ PyVal.pynone := by
  have main : ∀ (keys : List PathKey) (v : PyVal), cleanPath keys v = true →
      ∃ r, walkSteps keys v = Except.ok r := by
    intro keys
    induction keys with
    | nil => exact fun v _ => ⟨v, rfl⟩
    | cons k rest ih =>
      intro v h
      match v, k with
      | .pynone, _ => exact ⟨.pynone, rfl⟩
      | .dict es, k =>
        rw [cleanPath] at h
        obtain ⟨r, hr⟩ := ih _ h
        exact ⟨r, hr⟩
      | .list xs, .i n =>
        rw [cleanPath] at h
        by_cases h0 : (0 : Int) ≤ n
        · by_cases hlen : n < (xs.length : Int)
          · rw [if_pos h0, if_pos hlen] at h
            obtain ⟨r, hr⟩ := ih _ h
            refine ⟨r, ?_⟩
            have hws : walkSteps (PathKey.i n :: rest) (PyVal.list xs)
                = (do
                    let v' ← scoper_step (PyVal.list xs) (PathKey.i n)
                    walkSteps rest v') := rfl
            rw [hws]
            simp only [scoper_step]
            rw [if_pos hlen, if_pos h0]
            exact hr
          · rw [if_pos h0, if_neg hlen] at h
            obtain ⟨r, hr⟩ := ih _ h
            refine ⟨r, ?_⟩
            have hws : walkSteps (PathKey.i n :: rest) (PyVal.list xs)
                = (do
                    let v' ← scoper_step (PyVal.list xs) (PathKey.i n)
                    walkSteps rest v') := rfl
            rw [hws]
            simp only [scoper_step]
            rw [if_neg hlen]
            exact hr
        · rw [if_neg h0] at h
          cases h
      | .str s, .i n =>
        rw [cleanPath] at h
        by_cases h0 : (0 : Int) ≤ n
        · by_cases hlen : n < (s.length : Int)
          · rw [if_pos h0, if_pos hlen] at h
            obtain ⟨r, hr⟩ := ih _ h
            refine ⟨r, ?_⟩
            have hws : walkSteps (PathKey.i n :: rest) (PyVal.str s)
                = (do
                    let v' ← scoper_step (PyVal.str s) (PathKey.i n)
                    walkSteps rest v') := rfl
            rw [hws]
            simp only [scoper_step]
            rw [if_pos hlen, if_pos h0]
            exact hr
          · rw [if_pos h0, if_neg hlen] at h
            obtain ⟨r, hr⟩ := ih _ h
            refine ⟨r, ?_⟩
            have hws : walkSteps (PathKey.i n :: rest) (PyVal.str s)
                = (do
                    let v' ← scoper_step (PyVal.str s) (PathKey.i n)
                    walkSteps rest v') := rfl
            rw [hws]
            simp only [scoper_step]
            rw [if_neg hlen]
            exact hr
        · rw [if_neg h0] at h
          cases h
      | .boolean b, k => cases k <;> exact Bool.noConfusion h
      | .int m, k => cases k <;> exact Bool.noConfusion h
      | .list xs, .s sv => exact Bool.noConfusion h
      | .str s, .s sv => exact Bool.noConfusion h
  obtain ⟨r, hr⟩ := main keys v h
  refine ⟨if truthy r then r else .dict [], ?_, ?_⟩
  · unfold walk_path
    rw [hr]
    rfl
  · by_cases ht : truthy r
    · rw [if_pos ht]
      intro hrr
      subst hrr
      simp [truthy] at ht
    · rw [if_neg ht]
      intro hrr
      cases hrr

/-- C9 witness: the theorem at the spec's scoping example
(`{"process": {"name": "svc.exe"}}` under scope `process`). -/
theorem walk_path_total_on_clean_witness :
    ∃ r, walk_path [PathKey.s "process"]
        (.dict [(.s "process", .dict [(.s "name", .str "svc.exe")])])
      = Except.ok r ∧ r ≠ PyVal.pynone :=
  walk_path_total_on_clean [PathKey.s "process"]
    (.dict [(.s "process", .dict [(.s "name", .str "svc.exe")])]) (by decide)

/-! ## Claim C4: missing timestamp field -/

/-- A configuration with a scope path, used to show the scoping step can
fail before the timestamp check. -/
def c4Config : NConfig :=
  { strict := true, name := "source", time_field := "ts",
    time_format := "filetime", scope_keys := some [.s "a", .s "b"],
    event_updates := [], global_mapping := [], enum_converters := [],
    event_mapping := [] }

/-- C4 counterexample: a record lacking the configured timestamp field
for which `normalize` does *not* fail with the source-naming
`ValueError`: the configured scope path hits a number and the scoper's
`len()` call raises `TypeError` first (line 247 runs before the check
on line 250). -/
theorem normalize_scoper_typeerror :
    normalize_callback c4Config [(.s "a", .int 5)] = .error .typeError
    ∧ PyError.typeError ≠ .valueError
        ("Unable to normalize. Check that the input schema matches "
          ++ c4Config.name) :=
  ⟨rfl, by decide⟩

/-- C4 amended: provided no scope path is configured (so the scoping
step on line 247 cannot itself raise), normalizing any record lacking
the configured timestamp field fails with the `ValueError` whose
message names the source, producing no normalized output. -/
theorem normalize_missing_timestamp (N : NConfig) (data : List (PathKey × PyVal))
    (hscope : N.scope_keys = none)
    (hmiss : hasKey data (.s N.time_field) = false) :
    normalize_callback N data
      = .error (.valueError
          ("Unable to normalize. Check that the input schema matches " ++ N.name)) := by
  cases hstrict : N.strict
  · simp only [normalize_callback, hscope, hstrict, hmiss]
    rfl
  · simp only [normalize_callback, hscope, hstrict, hmiss]
    rfl

/-- C4 amended witness: an unscoped strict configuration and an empty
record. -/
theorem normalize_missing_timestamp_witness :
    normalize_callback
      { strict := true, name := "source", time_field := "ts",
        time_format := "filetime", scope_keys := none, event_updates := [],
        global_mapping := [], enum_converters := [], event_mapping := [] } []
      = .error (.valueError
          ("Unable to normalize. Check that the input schema matches " ++ "source")) :=
  normalize_missing_timestamp _ _ rfl rfl

/-! ## Claim C3: timestamp conversion

Rounding lemmas for the binary64 pipeline: a value that is exactly
representable in 53 significant bits survives the two correctly-rounded
operations unchanged, so whole-second tick counts of the form
`m * 2^k` with `m < 2^53` come out exact. -/

theorem rheDiv_mul (a b : Nat) (hb : 0 < b) : rheDiv (a * b) b = a := by
  unfold rheDiv
  rw [Nat.mul_div_cancel a hb, Nat.mul_mod_left a b]
  simp [hb]

theorem log2f_le (fuel n j : Nat) (h : n < 2 ^ (j + 1)) : log2f fuel n ≤ j := by
  induction fuel generalizing n j with
  | zero => exact Nat.zero_le j
  | succ f ih =>
    rw [log2f]
    by_cases h2 : n < 2
    · rw [if_pos h2]
      exact Nat.zero_le j
    · rw [if_neg h2]
      have hj : 1 ≤ j := by
        rcases Nat.eq_zero_or_pos j with hj0 | hj0
        · subst hj0
          norm_num at h
          omega
        · exact hj0
      have hdiv : n / 2 < 2 ^ (j - 1 + 1) := by
        rw [Nat.div_lt_iff_lt_mul (by norm_num : (0:Nat) < 2)]
        have hjj : j - 1 + 1 = j := by omega
        rw [hjj, ← pow_succ]
        exact h
      have := ih (n / 2) (j - 1) hdiv
      omega

/-- Exactness of the pipeline on whole seconds: if the tick count
`s * 10^7` is representable in 53 significant bits (`= m * 2^k`,
`m < 2^53`), the float computation returns it exactly. -/
theorem pyTicks_exact (s m k : Nat) (h1 : 1 ≤ s) (h2 : s < 2 ^ 53)
    (h3 : s * 10000000 = m * 2 ^ k) (h4 : m < 2 ^ 53) :
    pyTicks (s * 1000000) = s * 10000000 := by
  have hL52 : log2f 200 s ≤ 52 := log2f_le 200 s 52 (by simpa using h2)
  -- step A: total_seconds() is the exact division (s*10^6)/10^6 = s,
  -- rounded to a dyadic with nonnegative scale
  have hA : roundPos (s * 1000000) 1000000
      = (s * 2 ^ (52 - log2f 200 s), (52 : Int) - (log2f 200 s : Int)) := by
    simp only [roundPos, floorLog2Rat]
    have hd : (1000000 : Nat) ≤ s * 1000000 := Nat.le_mul_of_pos_left 1000000 h1
    rw [if_pos hd]
    have hq : s * 1000000 / 1000000 = s := Nat.mul_div_cancel s (by norm_num)
    rw [hq]
    have he : (0 : Int) ≤ 52 - (log2f 200 s : Int) := by omega
    rw [if_pos he]
    have ht : ((52 : Int) - (log2f 200 s : Int)).toNat = 52 - log2f 200 s := by
      omega
    rw [ht]
    rw [show s * 1000000 * 2 ^ (52 - log2f 200 s)
        = (s * 2 ^ (52 - log2f 200 s)) * 1000000 by ring]
    rw [rheDiv_mul _ _ (by norm_num)]
  -- step B: multiply by the exact double 1e7 and round again
  have hB0 : mulStep (s * 2 ^ (52 - log2f 200 s),
      (52 : Int) - (log2f 200 s : Int)) 10000000
      = roundPos (s * 2 ^ (52 - log2f 200 s) * 10000000)
          (2 ^ (52 - log2f 200 s)) := by
    simp only [mulStep]
    have he : (0 : Int) ≤ 52 - (log2f 200 s : Int) := by omega
    rw [if_pos he]
    have ht : ((52 : Int) - (log2f 200 s : Int)).toNat = 52 - log2f 200 s := by
      omega
    rw [ht]
  have hd2 : (2 : Nat) ^ (52 - log2f 200 s)
      ≤ s * 2 ^ (52 - log2f 200 s) * 10000000 := by
    calc (2 : Nat) ^ (52 - log2f 200 s)
        ≤ s * 2 ^ (52 - log2f 200 s) :=
          Nat.le_mul_of_pos_left _ h1
      _ ≤ s * 2 ^ (52 - log2f 200 s) * 10000000 :=
          Nat.le_mul_of_pos_right _ (by norm_num)
  have hq2 : s * 2 ^ (52 - log2f 200 s) * 10000000 / 2 ^ (52 - log2f 200 s)
      = s * 10000000 := by
    rw [show s * 2 ^ (52 - log2f 200 s) * 10000000
        = (s * 10000000) * 2 ^ (52 - log2f 200 s) by ring]
    exact Nat.mul_div_cancel _ (pow_pos (by norm_num) _)
  have hm1 : 1 ≤ m := by
    rcases Nat.eq_zero_or_pos m with hm0 | hm0
    · subst hm0
      simp at h3
      omega
    · exact hm0
  set E := 52 - log2f 200 s with hEdef
  set L2 := log2f 200 (s * 10000000) with hL2def
  have hL2 : L2 ≤ 52 + k := by
    rw [hL2def]
    apply log2f_le
    rw [h3]
    calc m * 2 ^ k < 2 ^ 53 * 2 ^ k :=
          (Nat.mul_lt_mul_right (pow_pos (by norm_num) k)).mpr h4
      _ = 2 ^ (52 + k + 1) := by
          rw [← pow_add]
          congr 1
          omega
  by_cases hcase : L2 ≤ 52
  · -- the second rounding keeps a nonnegative scale
    have hB : roundPos (s * 2 ^ E * 10000000) (2 ^ E)
        = (s * 10000000 * 2 ^ (52 - L2), (52 : Int) - (L2 : Int)) := by
      simp only [roundPos, floorLog2Rat]
      rw [if_pos hd2, hq2, ← hL2def]
      have he : (0 : Int) ≤ 52 - (L2 : Int) := by omega
      rw [if_pos he]
      have ht : ((52 : Int) - (L2 : Int)).toNat = 52 - L2 := by omega
      rw [ht]
      rw [show s * 2 ^ E * 10000000 * 2 ^ (52 - L2)
          = (s * 10000000 * 2 ^ (52 - L2)) * 2 ^ E by ring]
      rw [rheDiv_mul _ _ (pow_pos (by norm_num) _)]
    unfold pyTicks
    rw [hA, hB0, hB]
    simp only [floorD]
    have he : (0 : Int) ≤ 52 - (L2 : Int) := by omega
    rw [if_pos he]
    have ht : ((52 : Int) - (L2 : Int)).toNat = 52 - L2 := by omega
    rw [ht]
    exact Nat.mul_div_cancel _ (pow_pos (by norm_num) _)
  · -- the second rounding has negative scale: the mantissa is
    -- m * 2^(k - (L2 - 52)) at scale -(L2 - 52)
    push_neg at hcase
    have hE2k : L2 - 52 ≤ k := by omega
    have hsplit : k - (L2 - 52) + (L2 - 52) = k := Nat.sub_add_cancel hE2k
    have hB : roundPos (s * 2 ^ E * 10000000) (2 ^ E)
        = (m * 2 ^ (k - (L2 - 52)), (52 : Int) - (L2 : Int)) := by
      simp only [roundPos, floorLog2Rat]
      rw [if_pos hd2, hq2, ← hL2def]
      have he : ¬ ((0 : Int) ≤ 52 - (L2 : Int)) := by omega
      rw [if_neg he]
      have ht : (-((52 : Int) - (L2 : Int))).toNat = L2 - 52 := by omega
      rw [ht]
      have harr : s * 2 ^ E * 10000000
          = (m * 2 ^ (k - (L2 - 52))) * (2 ^ E * 2 ^ (L2 - 52)) := by
        rw [show s * 2 ^ E * 10000000 = (s * 10000000) * 2 ^ E by ring]
        rw [h3]
        rw [show (m * 2 ^ (k - (L2 - 52))) * (2 ^ E * 2 ^ (L2 - 52))
            = m * (2 ^ (k - (L2 - 52)) * 2 ^ (L2 - 52)) * 2 ^ E by ring]
        rw [← pow_add, hsplit]
      rw [harr]
      rw [rheDiv_mul _ _ (Nat.mul_pos (pow_pos (by norm_num) _)
        (pow_pos (by norm_num) _))]
    unfold pyTicks
    rw [hA, hB0, hB]
    simp only [floorD]
    have he : ¬ ((0 : Int) ≤ 52 - (L2 : Int)) := by omega
    rw [if_neg he]
    have ht : (-((52 : Int) - (L2 : Int))).toNat = L2 - 52 := by omega
    rw [ht]
    rw [mul_assoc, ← pow_add, hsplit]
    exact h3.symm
theorem ok_bind {A B : Type} (a : A) (f : A → Except PyError B) :
    (Except.ok a >>= f) = f a := rfl

theorem applyGlobal_d (l : List (String × Conv)) (sc : PyVal)
    (o : List (PathKey × PyVal)) :
    ∃ es, applyGlobal l sc (OutVal.d o) = .ok (OutVal.d es) := by
  induction l generalizing o with
  | nil => exact ⟨o, rfl⟩
  | cons p rest ih =>
    obtain ⟨kk, f⟩ := p
    cases hf : f sc with
    | some v =>
      obtain ⟨es, hes⟩ := ih (setAssocP o (.s kk) v)
      exact ⟨es, by simp only [applyGlobal, hf]; exact hes⟩
    | none =>
      obtain ⟨es, hes⟩ := ih o
      exact ⟨es, by simp only [applyGlobal, hf]; exact hes⟩

theorem applyEnums_d (l : List (String × List (String × Pred)))
    (dat : List (PathKey × PyVal)) (o : List (PathKey × PyVal)) :
    ∃ es, applyEnums l dat (OutVal.d o) = .ok (OutVal.d es) := by
  induction l generalizing o with
  | nil => exact ⟨o, rfl⟩
  | cons p rest ih =>
    obtain ⟨ename, opts⟩ := p
    cases hf : firstEnum opts dat with
    | some tag =>
      obtain ⟨es, hes⟩ := ih (setAssocP o (.s ename) (.str tag))
      exact ⟨es, by simp only [applyEnums, hf]; exact hes⟩
    | none =>
      obtain ⟨es, hes⟩ := ih o
      exact ⟨es, by simp only [applyEnums, hf]; exact hes⟩

theorem applyEvent_d (l : List (String × Conv)) (sc : PyVal)
    (o : List (PathKey × PyVal)) :
    ∃ es, applyEvent l sc (OutVal.d o) = .ok (OutVal.d es) := by
  induction l generalizing o with
  | nil => exact ⟨o, rfl⟩
  | cons p rest ih =>
    obtain ⟨kk, f⟩ := p
    cases hf : f sc with
    | some v =>
      obtain ⟨es, hes⟩ := ih (setAssocP o (.s kk) v)
      exact ⟨es, by simp only [applyEvent, hf]; exact hes⟩
    | none =>
      obtain ⟨es, hes⟩ := ih o
      exact ⟨es, by simp only [applyEvent, hf]; exact hes⟩

/-- The specification's exact tick-count semantics for a parsed civil
timestamp ("the exact integer number of 100-nanosecond ticks elapsed
from 1601-01-01T00:00:00Z to the civil time ... seconds multiplied by
10,000,000"), stated from the spec's words for comparison with the
code's float pipeline: ten ticks per elapsed microsecond. -/
def spec_exact_ticks (c : Civil) : Int := totalMicros c * 10

/-- C3 amended: for unscoped configurations, (i) with the `filetime`
sentinel the normalized `timestamp` equals the raw field value
unchanged; (ii) with a civil format, the normalized `timestamp` is the
binary64 computation `int(total_seconds() * 1e7)`, which equals the
exact tick count whenever the elapsed time is a whole number of seconds
`s` whose tick count `s * 10^7` is representable in 53 significant bits
(in particular for the spec's example `2021-01-01T00:00:00`); outside
that range the float computation can differ from the exact count (see
the counterexample). -/
theorem normalize_timestamp_amended :
    (∀ (N : NConfig) (data : List (PathKey × PyVal)) (v : PyVal),
      N.scope_keys = none → N.time_format = "filetime" →
      dictGet data (.s N.time_field) = some v →
      ∃ et out, normalize_callback N data = .ok ⟨et, v, out⟩)
    ∧ (∀ (N : NConfig) (data : List (PathKey × PyVal)) (raw : String)
        (c : Civil) (s m k : Nat),
      N.scope_keys = none → N.time_format ≠ "filetime" →
      dictGet data (.s N.time_field) = some (.str raw) →
      strptime N.time_format raw = .ok c →
      totalMicros c = (s : Int) * 1000000 →
      1 ≤ s → s < 2 ^ 53 → s * 10000000 = m * 2 ^ k → m < 2 ^ 53 →
      ∃ et out,
        normalize_callback N data = .ok ⟨et, .int ((s : Int) * 10000000), out⟩
        ∧ ((s : Int) * 10000000) = spec_exact_ticks c) := by
  constructor
  · intro N data v hscope hfmt hts
    have hk : hasKey data (.s N.time_field) = true := by
      simp [hasKey, hts]
    have hconv : convertTs N.time_format
        ((dictGet data (.s N.time_field)).getD .pynone) = .ok v := by
      rw [hts, hfmt]
      simp [convertTs]
    cases hstrict : N.strict
    · obtain ⟨o1, ho1⟩ := applyGlobal_d N.global_mapping (.dict data) data
      obtain ⟨o2, ho2⟩ := applyEnums_d
        (lookupD N.enum_converters (classify N.event_updates data) []) data o1
      obtain ⟨o3, ho3⟩ := applyEvent_d
        (lookupD N.event_mapping (classify N.event_updates data) [])
        (.dict data) o2
      refine ⟨classify N.event_updates data,
        .d (setAssocP (setAssocP o3 (.s "event_type")
          (.str (classify N.event_updates data))) (.s "timestamp") v), ?_⟩
      simp only [normalize_callback, hscope, hstrict, hk, hconv, ho1, ho2, ho3,
        setOut, ok_bind]
      rfl
    · obtain ⟨o1, ho1⟩ := applyGlobal_d N.global_mapping (.dict data) []
      obtain ⟨o2, ho2⟩ := applyEnums_d
        (lookupD N.enum_converters (classify N.event_updates data) []) data o1
      obtain ⟨o3, ho3⟩ := applyEvent_d
        (lookupD N.event_mapping (classify N.event_updates data) [])
        (.dict data) o2
      refine ⟨classify N.event_updates data,
        .d (setAssocP (setAssocP o3 (.s "event_type")
          (.str (classify N.event_updates data))) (.s "timestamp") v), ?_⟩
      simp only [normalize_callback, hscope, hstrict, hk, hconv, ho1, ho2, ho3,
        setOut, ok_bind]
      rfl
  · intro N data raw c s m k hscope hne hts hparse hmu h1 h2 h3 h4
    have hk : hasKey data (.s N.time_field) = true := by
      simp [hasKey, hts]
    have hcast : ((s : Int) * 1000000).toNat = s * 1000000 := by
      rw [show ((s : Int) * 1000000) = ((s * 1000000 : Nat) : Int) by push_cast; ring]
      exact Int.toNat_ofNat _
    have hconv : convertTs N.time_format
        ((dictGet data (.s N.time_field)).getD .pynone)
        = .ok (.int ((s : Int) * 10000000)) := by
      rw [hts]
      show convertTs N.time_format (.str raw) = _
      rw [convertTs, if_pos hne]
      show (do
        let cc ← strptime N.time_format raw
        Except.ok (PyVal.int (floatTicks (totalMicros cc)))) = _
      rw [hparse, ok_bind, hmu]
      rw [floatTicks, if_pos (by positivity : (0 : Int) ≤ (s : Int) * 1000000)]
      rw [hcast, pyTicks_exact s m k h1 h2 h3 h4]
      norm_cast
    have hexact : ((s : Int) * 10000000) = spec_exact_ticks c := by
      rw [spec_exact_ticks, hmu]
      ring
    cases hstrict : N.strict
    · obtain ⟨o1, ho1⟩ := applyGlobal_d N.global_mapping (.dict data) data
      obtain ⟨o2, ho2⟩ := applyEnums_d
        (lookupD N.enum_converters (classify N.event_updates data) []) data o1
      obtain ⟨o3, ho3⟩ := applyEvent_d
        (lookupD N.event_mapping (classify N.event_updates data) [])
        (.dict data) o2
      refine ⟨classify N.event_updates data,
        .d (setAssocP (setAssocP o3 (.s "event_type")
          (.str (classify N.event_updates data))) (.s "timestamp")
          (.int ((s : Int) * 10000000))), ?_, hexact⟩
      simp only [normalize_callback, hscope, hstrict, hk, hconv, ho1, ho2, ho3,
        setOut, ok_bind]
      rfl
    · obtain ⟨o1, ho1⟩ := applyGlobal_d N.global_mapping (.dict data) []
      obtain ⟨o2, ho2⟩ := applyEnums_d
        (lookupD N.enum_converters (classify N.event_updates data) []) data o1
      obtain ⟨o3, ho3⟩ := applyEvent_d
        (lookupD N.event_mapping (classify N.event_updates data) [])
        (.dict data) o2
      refine ⟨classify N.event_updates data,
        .d (setAssocP (setAssocP o3 (.s "event_type")
          (.str (classify N.event_updates data))) (.s "timestamp")
          (.int ((s : Int) * 10000000))), ?_, hexact⟩
      simp only [normalize_callback, hscope, hstrict, hk, hconv, ho1, ho2, ho3,
        setOut, ok_bind]
      rfl

/-- An unscoped strict configuration with the microsecond civil format,
for the timestamp counterexample. -/
def c3Config : NConfig :=
  { strict := true, name := "src", time_field := "ts",
    time_format := "%Y-%m-%dT%H:%M:%S.%f", scope_keys := none,
    event_updates := [], global_mapping := [], enum_converters := [],
    event_mapping := [] }

/-- C3 counterexample: the record timestamp `2021-01-01T00:00:00.000001`
parses to one microsecond past 2021-01-01, whose exact tick count is
132539328000000010; the code's binary64 computation
`int(total_seconds() * 1e7)` instead produces 132539328000000016 (the
division result rounds up by 2^-19 s and the product then rounds to the
nearest multiple of 16 ticks), so the normalized timestamp is not the
exact tick count. -/
theorem normalize_timestamp_inexact :
    normalize_callback c3Config [(.s "ts", .str "2021-01-01T00:00:00.000001")]
      = .ok ⟨"generic", .int 132539328000000016,
          .d [(.s "event_type", .str "generic"),
              (.s "timestamp", .int 132539328000000016)]⟩
    ∧ strptime "%Y-%m-%dT%H:%M:%S.%f" "2021-01-01T00:00:00.000001"
        = .ok ⟨2021, 1, 1, 0, 0, 0, 1⟩
    ∧ spec_exact_ticks ⟨2021, 1, 1, 0, 0, 0, 1⟩ = 132539328000000010
    ∧ (132539328000000016 : Int) ≠ 132539328000000010 :=
  ⟨rfl, rfl, rfl, by decide⟩

/-- C3 amended witness: part (i) at a `filetime` configuration with the
spec's raw value, and part (ii) at the spec's civil example
`2021-01-01T00:00:00` (13253932800 whole seconds past 1601, tick count
`13253932800 * 10^7 = 4044779296875 * 2^15`, representable). -/
theorem normalize_timestamp_amended_witness :
    (∃ et out, normalize_callback
        { strict := true, name := "src", time_field := "ts",
          time_format := "filetime", scope_keys := none, event_updates := [],
          global_mapping := [], enum_converters := [], event_mapping := [] }
        [(.s "ts", .int 132538521600000000)]
      = .ok ⟨et, .int 132538521600000000, out⟩)
    ∧ (∃ et out, normalize_callback
        { strict := true, name := "src", time_field := "ts",
          time_format := "%Y-%m-%dT%H:%M:%S", scope_keys := none,
          event_updates := [], global_mapping := [], enum_converters := [],
          event_mapping := [] }
        [(.s "ts", .str "2021-01-01T00:00:00")]
      = .ok ⟨et, .int ((13253932800 : Int) * 10000000), out⟩
      ∧ ((13253932800 : Int) * 10000000)
        = spec_exact_ticks ⟨2021, 1, 1, 0, 0, 0, 0⟩) :=
  ⟨normalize_timestamp_amended.1 _ _ _ rfl rfl rfl,
   normalize_timestamp_amended.2 _ _ "2021-01-01T00:00:00"
     ⟨2021, 1, 1, 0, 0, 0, 0⟩ 13253932800 4044779296875 15
     rfl (by decide) rfl rfl (by decide) (by decide) (by decide)
     (by decide) (by decide)⟩

end Eqllib
